import Mathlib

/-!
# Verification of the Food_recipe_API recipe routes

Shallow embedding of `src/routes/recipes.js` (the mounted router, imported by
`src/routes/index.js`): the PostgreSQL tables touched by the handlers become a
record of row lists, each SQL statement becomes a pure state transition, and the
`BEGIN` / `COMMIT` / `ROLLBACK` bracket of the write handlers becomes a
transaction wrapper that discards the working state on any error, exactly as the
`catch` blocks of the source do.

Failure of individual statements (a constraint violation on an insert, or a
unique-index conflict caused by a concurrent transaction whose row is not yet
visible to this snapshot) is injected through an explicit `FaultSpec` argument,
so that the rollback behaviour can be stated for every failure point.
-/

namespace FoodRecipeApi

/-- A row of the `recipes` table.  The columns are the ones the handlers in
`src/routes/recipes.js` read or write: `created_at` / `updated_at` are
server-assigned timestamps no claim refers to, so they are projected away. -/
structure RecipeRow where
  recipe_id : Nat
  title : String
  instructions : String
  image_url : Option String
  category_id : Nat
deriving Repr, DecidableEq

/-- A row of the `ingredients` table (`ingredient_id` primary key, `name` with a
unique index — the `ON CONFLICT (name)` clause of the resolver requires it). -/
structure IngredientRow where
  ingredient_id : Nat
  name : String
deriving Repr, DecidableEq

/-- A row of the `recipe_ingredients` join table. -/
structure RecipeIngredientRow where
  recipe_id : Nat
  ingredient_id : Nat
  quantity : Int
  unit : String
deriving Repr, DecidableEq

/-- The visible database state: the three tables plus the serial sequences
backing the two primary keys. -/
structure DBState where
  recipes : List RecipeRow
  ingredients : List IngredientRow
  recipe_ingredients : List RecipeIngredientRow
  nextRecipeId : Nat
  nextIngredientId : Nat
deriving Repr, DecidableEq

/-- The empty database, with both serial sequences starting at 1. -/
def emptyDB : DBState :=
  { recipes := [], ingredients := [], recipe_ingredients := [],
    nextRecipeId := 1, nextIngredientId := 1 }

/-- One element of the request body's `ingredients` array. -/
structure IngredientInput where
  name : String
  quantity : Int
  unit : String
deriving Repr, DecidableEq

/-- The request body of `POST /recipes` and `PUT /recipes/:id`:
`\x7b title, instructions, imageUrl, categoryId, ingredients \x7d`. -/
structure RecipeInput where
  title : String
  instructions : String
  imageUrl : Option String
  categoryId : Nat
  ingredients : List IngredientInput
deriving Repr, DecidableEq

/-- An error thrown inside a write handler's `try` block. -/
inductive JsError where
  /-- A storage statement raised (constraint violation, transport failure …). -/
  | queryFailed
  /-- `existingIngredientRows[0].ingredient_id` evaluated with
  `existingIngredientRows` empty: reading a property of `undefined` throws a
  `TypeError`. -/
  | typeErrorUndefined
deriving Repr, DecidableEq

/-- Injected failures.  `failRecipeInsert` makes the `INSERT INTO recipes`
statement raise; `failLineInsert = some k` makes the `INSERT INTO
recipe_ingredients` statement of the line at index `k` raise; `phantoms` are
ingredient names whose unique-index entry was committed by a concurrent
transaction but whose row is not visible to this transaction's reads, so an
`ON CONFLICT DO NOTHING` insert of such a name is a silent no-op while the
fallback `SELECT` finds nothing. -/
structure FaultSpec where
  failRecipeInsert : Bool
  failLineInsert : Option Nat
  phantoms : List String
deriving Repr, DecidableEq

/-- The fault-free schedule: every statement succeeds and no concurrent
transaction races on an ingredient name. -/
def noFault : FaultSpec := ⟨false, none, []⟩

/-! ## Ingredient resolver

`INSERT INTO ingredients (name) VALUES ($1) ON CONFLICT (name) DO NOTHING
RETURNING ingredient_id`, and on conflict the fallback
`SELECT ingredient_id FROM ingredients WHERE name = $1`; the source then reads
`existingIngredientRows[0].ingredient_id`, which throws if the select returned
no rows.  This block appears verbatim in both the POST and the PUT handler. -/

/-- Resolve an ingredient name to its id inside an open transaction, mirroring
the conflict-insert-then-lookup block of `src/routes/recipes.js`. -/
def resolveIngredient (phantoms : List String) (name : String) (s : DBState) :
    Except JsError (Nat × DBState) :=
  if s.ingredients.any (·.name = name) ∨ phantoms.contains name then
    -- conflict: the insert is a no-op and returns no rows; fall back to SELECT
    match s.ingredients.find? (·.name = name) with
    | some row => .ok (row.ingredient_id, s)
    | none => .error .typeErrorUndefined
  else
    let iid := s.nextIngredientId
    .ok (iid,
      { s with ingredients := s.ingredients ++ [⟨iid, name⟩],
               nextIngredientId := iid + 1 })

/-- Process one element of the `ingredients` array: resolve the name, then
`INSERT INTO recipe_ingredients (recipe_id, ingredient_id, quantity, unit)`. -/
def insertLine (rid : Nat) (f : FaultSpec) (idx : Nat) (line : IngredientInput)
    (s : DBState) : Except JsError DBState :=
  match resolveIngredient f.phantoms line.name s with
  | .error e => .error e
  | .ok (iid, s1) =>
    if f.failLineInsert = some idx then
      .error .queryFailed
    else
      .ok { s1 with recipe_ingredients :=
              s1.recipe_ingredients ++ [⟨rid, iid, line.quantity, line.unit⟩] }

/-- Process the whole `ingredients` array in order (the source maps an async
closure over the array and awaits them on one connection, which serialises the
statements; within-transaction visibility makes the order immaterial). -/
def processLines (rid : Nat) (f : FaultSpec) :
    List IngredientInput → Nat → DBState → Except JsError DBState
  | [], _, s => .ok s
  | line :: rest, idx, s =>
    match insertLine rid f idx line s with
    | .error e => .error e
    | .ok s1 => processLines rid f rest (idx + 1) s1

/-! ## Recipe writer: create -/

/-- Response of the `POST /recipes` handler: `201 \x7b recipeId \x7d` after
`COMMIT`, or the `catch` branch (`ROLLBACK`, `next(error)`, 500). -/
inductive CreateResp where
  | created (recipeId : Nat)
  | serverError500
deriving Repr, DecidableEq

/-- Result of the create handler: the response, the database state after the
handler returns, and whether a transaction was opened (`BEGIN` issued). -/
structure CreateResult where
  resp : CreateResp
  state : DBState
  began : Bool
deriving Repr, DecidableEq

/-- The `POST /recipes` handler of `src/routes/recipes.js`.  It destructures
the body with no validation whatsoever, issues `BEGIN`, inserts the recipe row,
processes each ingredient line, and commits; any thrown error is caught,
`ROLLBACK` is issued (discarding the working state) and a 500 is produced. -/
def createRecipe (inp : RecipeInput) (f : FaultSpec) (s : DBState) : CreateResult :=
  if f.failRecipeInsert then
    ⟨.serverError500, s, true⟩
  else
    match processLines s.nextRecipeId f inp.ingredients 0
      { s with
        recipes := s.recipes ++
          [⟨s.nextRecipeId, inp.title, inp.instructions, inp.imageUrl, inp.categoryId⟩],
        nextRecipeId := s.nextRecipeId + 1 } with
    | .ok s2 => ⟨.created s.nextRecipeId, s2, true⟩
    | .error _ => ⟨.serverError500, s, true⟩

/-! ## Recipe writer: update -/

/-- Response of the `PUT /recipes/:id` handler.  The source has no 404 branch:
it either commits and sends the success message, or catches, rolls back and
forwards the error (a server error). -/
inductive UpdateResp where
  | updatedOk200
  | serverError
deriving Repr, DecidableEq

/-- The `UPDATE recipes SET … WHERE recipe_id = $5` statement: rewrites the
matching rows in place and returns no error whether or not any row matched. -/
def recipesAfterUpdate (id : Nat) (inp : RecipeInput) (s : DBState) :
    List RecipeRow :=
  s.recipes.map (fun r =>
    if r.recipe_id = id then
      { r with title := inp.title, instructions := inp.instructions,
               image_url := inp.imageUrl, category_id := inp.categoryId }
    else r)

/-- The `PUT /recipes/:id` handler of `src/routes/recipes.js`: `BEGIN`, an
unconditional `UPDATE recipes SET … WHERE recipe_id = $5` whose row count is
never inspected, then — only when the input `ingredients` array is non-empty —
`DELETE FROM recipe_ingredients WHERE recipe_id = $1` followed by the same
resolve-and-insert loop as create, then `COMMIT`; any error rolls back. -/
def updateRecipe (id : Nat) (inp : RecipeInput) (f : FaultSpec) (s : DBState) :
    UpdateResp × DBState :=
  if inp.ingredients.length > 0 then
    match processLines id f inp.ingredients 0
      { s with recipes := recipesAfterUpdate id inp s,
               recipe_ingredients :=
                 s.recipe_ingredients.filter (fun l => l.recipe_id ≠ id) } with
    | .ok s3 => (.updatedOk200, s3)
    | .error _ => (.serverError, s)
  else
    (.updatedOk200, { s with recipes := recipesAfterUpdate id inp s })

/-- A write request of the recipe router: `POST /recipes` or
`PUT /recipes/:id`.  Both share the same ingredient-resolution block. -/
inductive WriteRequest where
  | create (inp : RecipeInput)
  | update (id : Nat) (inp : RecipeInput)
deriving Repr, DecidableEq

/-- The request body's `ingredients` array of a write request. -/
def WriteRequest.lines : WriteRequest → List IngredientInput
  | .create inp => inp.ingredients
  | .update _ inp => inp.ingredients

/-- Dispatch a write request to its handler under the fault-free schedule,
returning the id of the recipe whose ingredient lines were written (the
created recipe's fresh id, or the update's target id) together with the
resulting database state. -/
def runWrite (w : WriteRequest) (s : DBState) : Nat × DBState :=
  match w with
  | .create inp => (s.nextRecipeId, (createRecipe inp noFault s).state)
  | .update id inp => (id, (updateRecipe id inp noFault s).snd)

/-! ## Recipe reader -/

/-- One element of the aggregated `ingredients` JSON array:
`json_build_object('name', i.name, 'quantity', ri.quantity, 'unit', ri.unit)`.
Every field is nullable because a `LEFT JOIN` pads unmatched rows with NULLs. -/
structure JsonIngredient where
  name : Option String
  quantity : Option Int
  unit : Option String
deriving Repr, DecidableEq

/-- The join row produced when a recipe has no ingredient lines: the single
null-extended row the `LEFT JOIN` keeps for the recipe. -/
def nullJsonIngredient : JsonIngredient := ⟨none, none, none⟩

/-- `SELECT i.name … WHERE i.ingredient_id = iid` through the second
`LEFT JOIN`: NULL when no ingredient row matches. -/
def ingredientName (s : DBState) (iid : Nat) : Option String :=
  (s.ingredients.find? (·.ingredient_id = iid)).map (·.name)

/-- The join rows of one recipe. -/
def recipeLines (s : DBState) (rid : Nat) : List RecipeIngredientRow :=
  s.recipe_ingredients.filter (·.recipe_id = rid)

/-- `json_agg(json_build_object(…))` grouped by `r.recipe_id` after the two
`LEFT JOIN`s: with no matching join rows the group still holds one null-padded
row, so the aggregate is a one-element array of nulls, never empty. -/
def aggIngredients (s : DBState) (rid : Nat) : List JsonIngredient :=
  match recipeLines s rid with
  | [] => [nullJsonIngredient]
  | ls => ls.map (fun l =>
      ⟨ingredientName s l.ingredient_id, some l.quantity, some l.unit⟩)

/-- One row of the reader queries' result set: the recipe columns plus the
aggregated `ingredients` array. -/
structure RecipeView where
  row : RecipeRow
  ingredients : List JsonIngredient
deriving Repr, DecidableEq

/-- The query of `GET /recipes`: every recipe (outer join), each with its
aggregated ingredient array. -/
def getAllRecipes (s : DBState) : List RecipeView :=
  s.recipes.map (fun r => ⟨r, aggIngredients s r.recipe_id⟩)

/-- The query of `GET /recipes/:id` plus the handler's emptiness check:
`none` models the 404 response. -/
def getRecipeById (id : Nat) (s : DBState) : Option RecipeView :=
  (s.recipes.find? (·.recipe_id = id)).map (fun r => ⟨r, aggIngredients s r.recipe_id⟩)

/-! ## Recipe deleter -/

/-- Response of the `DELETE /recipes/:id` handler. -/
inductive DeleteResp where
  | deletedOk200
  | notFound404
deriving Repr, DecidableEq

/-- Modelled from the spec: the repository ships no schema file, so the
`DELETE FROM recipes WHERE recipe_id = $1` statement's effect on the join table
follows the spec's words — dependent Ingredient Line rows are removed by a
database-enforced cascade constraint (`recipe_ingredients.recipe_id` references
`recipes` with ON DELETE CASCADE).  Returns the statement's `rowCount` (number
of recipe rows deleted) and the resulting state. -/
def sqlDeleteRecipe (id : Nat) (s : DBState) : Nat × DBState :=
  (s.recipes.length - (s.recipes.filter (fun r => r.recipe_id ≠ id)).length,
   { s with recipes := s.recipes.filter (fun r => r.recipe_id ≠ id),
            recipe_ingredients :=
              s.recipe_ingredients.filter (fun l => l.recipe_id ≠ id) })

/-- The `DELETE /recipes/:id` handler: issue the delete, answer 404 when
`result.rowCount === 0`, and the success message otherwise. -/
def deleteRecipe (id : Nat) (s : DBState) : DeleteResp × DBState :=
  if (sqlDeleteRecipe id s).fst = 0 then (.notFound404, s)
  else (.deletedOk200, (sqlDeleteRecipe id s).snd)

/-! ## The get-all handler's catch block

The `GET /recipes` handler catches the query error under the parameter name
`error` but every reference inside the catch block is to the identifier `err`,
which is bound nowhere; evaluating it throws a `ReferenceError` out of the
handler before `res.status(500)` is reached. -/

/-- The identifier bound by `catch (error)` in the get-all handler. -/
def catchParamName : String := "error"

/-- The identifier the catch block's body actually dereferences
(`err.message`, `err.stack`, …, and `details: err.message`). -/
def catchBodyVarName : String := "err"

/-- JavaScript identifier lookup in a lexical environment. -/
def lookupVar (env : List (String × String)) (x : String) : Option String :=
  (env.find? (·.fst = x)).map (·.snd)

/-- Outcome of the `GET /recipes` handler. -/
inductive GetAllOutcome where
  /-- Query succeeded: 200 with the rows. -/
  | ok200 (rows : List RecipeView)
  /-- Catch block ran to completion: 500 JSON with the error details. -/
  | sent500 (details : String)
  /-- The catch block itself threw a `ReferenceError` on an unbound
  identifier, so the handler sent nothing and the framework's fallback takes
  over. -/
  | threwReferenceError (ident : String)
deriving Repr, DecidableEq

/-- The `GET /recipes` handler: on query success, 200 with the aggregated
rows; on query failure `queryError = some msg`, the catch block binds only
`catchParamName` and then evaluates `catchBodyVarName`. -/
def getAllHandler (queryError : Option String) (s : DBState) : GetAllOutcome :=
  match queryError with
  | none => .ok200 (getAllRecipes s)
  | some msg =>
    match lookupVar [(catchParamName, msg)] catchBodyVarName with
    | some details => .sent500 details
    | none => .threwReferenceError catchBodyVarName

/-! ## Well-formedness invariant -/

/-- Well-formedness of the `ingredients` table: ids are below the serial
sequence, ids are pairwise distinct (primary key) and names are pairwise
distinct (the unique index the `ON CONFLICT (name)` clause relies on). -/
def WFing (s : DBState) : Prop :=
  (∀ i ∈ s.ingredients, i.ingredient_id < s.nextIngredientId) ∧
  s.ingredients.Pairwise (fun a b => a.ingredient_id ≠ b.ingredient_id) ∧
  s.ingredients.Pairwise (fun a b => a.name ≠ b.name)

/-- Database well-formedness: recipe ids are below their serial sequence and
pairwise distinct (primary key), and the ingredient table is well-formed. -/
def WF (s : DBState) : Prop :=
  (∀ r ∈ s.recipes, r.recipe_id < s.nextRecipeId) ∧
  s.recipes.Pairwise (fun a b => a.recipe_id ≠ b.recipe_id) ∧
  WFing s

instance (s : DBState) : Decidable (WFing s) := by
  unfold WFing
  infer_instance

instance (s : DBState) : Decidable (WF s) := by
  unfold WF
  infer_instance

/-- Correspondence between one persisted join row and the input line it came
from: right recipe id, the input's quantity and unit, and an ingredient row of
the final state carrying the input's name under the row's ingredient id. -/
def LineMatches (rid : Nat) (t : DBState) (l : RecipeIngredientRow)
    (g : IngredientInput) : Prop :=
  l.recipe_id = rid ∧ l.quantity = g.quantity ∧ l.unit = g.unit ∧
  ∃ row ∈ t.ingredients, row.ingredient_id = l.ingredient_id ∧ row.name = g.name

/-! ## Concrete fixtures used by witnesses and counterexamples -/

/-- The spec's concrete create scenario, with a third line added so a failure
of the third line insert can be exercised. -/
def teaInput : RecipeInput :=
  ⟨"Tea", "Boil water", none, 1,
   [⟨"Water", 1, "cup"⟩, ⟨"Tea Leaves", 1, "tsp"⟩, ⟨"Sugar", 2, "tsp"⟩]⟩

/-- First create request of the Salt scenario. -/
def saltInputA : RecipeInput := ⟨"A", "ia", none, 1, [⟨"Salt", 1, "tsp"⟩]⟩

/-- Second create request of the Salt scenario. -/
def saltInputB : RecipeInput :=
  ⟨"B", "ib", none, 1, [⟨"Salt", 2, "tsp"⟩, ⟨"Pepper", 1, "tsp"⟩]⟩

/-- A database holding one recipe (id 1) with ingredient lines for `A` and
`B`. -/
def twoLineState : DBState :=
  { recipes := [⟨1, "R", "i", none, 1⟩],
    ingredients := [⟨1, "A"⟩, ⟨2, "B"⟩],
    recipe_ingredients := [⟨1, 1, 1, "x"⟩, ⟨1, 2, 2, "y"⟩],
    nextRecipeId := 2, nextIngredientId := 3 }

/-- An update body whose `ingredients` array is empty. -/
def emptyLinesInput : RecipeInput := ⟨"R2", "i2", none, 1, []⟩

/-- An update body replacing the lines with the single ingredient `C`. -/
def onlyCInput : RecipeInput := ⟨"R2", "i2", none, 1, [⟨"C", 3, "z"⟩]⟩

/-- A database holding one recipe (id 1) with no ingredient lines. -/
def zeroLineState : DBState :=
  { recipes := [⟨1, "T", "I", none, 1⟩],
    ingredients := [], recipe_ingredients := [],
    nextRecipeId := 2, nextIngredientId := 1 }

/-- A create body violating every input constraint: empty title, empty
instructions, a line with empty name, zero quantity and empty unit. -/
def invalidInput : RecipeInput := ⟨"", "", none, 1, [⟨"", 0, ""⟩]⟩

/-- A schedule where a concurrent transaction races on the name `Water`:
its unique-index entry conflicts but its row is not visible. -/
def waterRace : FaultSpec := ⟨false, none, ["Water"]⟩

/-- A schedule where the third ingredient-line insert raises. -/
def thirdLineFails : FaultSpec := ⟨false, some 2, []⟩

/-! ## List helpers about keys with pairwise-distinct values -/

theorem find?_eq_of_key_mem {α β : Type} [DecidableEq β] (k : α → β) :
    ∀ {l : List α} {x : α}, x ∈ l → l.Pairwise (fun a b => k a ≠ k b) →
      l.find? (fun a => k a = k x) = some x := by
  intro l
  induction l with
  | nil => intro x hx; cases hx
  | cons y t ih =>
    intro x hx hp
    rw [List.pairwise_cons] at hp
    by_cases hk : k y = k x
    · have hxy : x = y := by
        rcases List.mem_cons.mp hx with h | h
        · exact h
        · exact absurd hk (hp.1 x h)
      subst hxy
      simp [List.find?]
    · have hxt : x ∈ t := by
        rcases List.mem_cons.mp hx with h | h
        · subst h; exact absurd rfl hk
        · exact h
      have : (fun a => decide (k a = k x)) y = false := by
        simp [hk]
      rw [List.find?_cons_of_neg _ (by simpa using this)]
      exact ih hxt hp.2

theorem filter_key_eq_singleton {α β : Type} [DecidableEq β] (k : α → β) :
    ∀ {l : List α} {x : α}, x ∈ l → l.Pairwise (fun a b => k a ≠ k b) →
      l.filter (fun a => k a = k x) = [x] := by
  intro l
  induction l with
  | nil => intro x hx; cases hx
  | cons y t ih =>
    intro x hx hp
    rw [List.pairwise_cons] at hp
    by_cases hk : k y = k x
    · have hxy : x = y := by
        rcases List.mem_cons.mp hx with h | h
        · exact h
        · exact absurd hk (hp.1 x h)
      subst hxy
      have ht : t.filter (fun a => k a = k x) = [] := by
        apply List.filter_eq_nil_iff.mpr
        intro a ha
        simpa using fun hax => (hp.1 a ha) hax.symm
      simp only [List.filter_cons]
      simp [ht]
    · have hxt : x ∈ t := by
        rcases List.mem_cons.mp hx with h | h
        · subst h; exact absurd rfl hk
        · exact h
      simp only [List.filter_cons]
      simp [hk, ih hxt hp.2]

theorem key_mem_unique {α β : Type} (k : α → β) :
    ∀ {l : List α} {x y : α}, x ∈ l → y ∈ l →
      l.Pairwise (fun a b => k a ≠ k b) → k x = k y → x = y := by
  intro l
  induction l with
  | nil => intro x y hx; cases hx
  | cons z t ih =>
    intro x y hx hy hp hk
    rw [List.pairwise_cons] at hp
    rcases List.mem_cons.mp hx with hx1 | hx1
    · rcases List.mem_cons.mp hy with hy1 | hy1
      · exact hx1.trans hy1.symm
      · exact absurd (hx1 ▸ hk) (hp.1 y hy1)
    · rcases List.mem_cons.mp hy with hy1 | hy1
      · exact absurd (hy1 ▸ hk).symm (hp.1 x hx1)
      · exact ih hx1 hy1 hp.2 hk

/-! ## Resolver lemmas -/

/-- Everything the transaction-level proofs need about a successful resolver
call: the other tables are untouched, the ingredient table only grows, the
returned id names a row carrying the requested name, and a row is added only
when the name was genuinely fresh (absent from the table and not raced). -/
theorem resolveIngredient_ok {phantoms : List String} {name : String}
    {s : DBState} {iid : Nat} {s' : DBState}
    (h : resolveIngredient phantoms name s = .ok (iid, s')) :
    s'.recipes = s.recipes ∧ s'.recipe_ingredients = s.recipe_ingredients ∧
    s'.nextRecipeId = s.nextRecipeId ∧
    s.nextIngredientId ≤ s'.nextIngredientId ∧
    (∀ x ∈ s.ingredients, x ∈ s'.ingredients) ∧
    (∃ row ∈ s'.ingredients, row.ingredient_id = iid ∧ row.name = name) ∧
    (∀ x ∈ s'.ingredients, x ∈ s.ingredients ∨
      (x = ⟨iid, name⟩ ∧ iid = s.nextIngredientId ∧ ¬ phantoms.contains name ∧
        ∀ y ∈ s.ingredients, y.name ≠ name)) := by
  unfold resolveIngredient at h
  by_cases hc : s.ingredients.any (·.name = name) ∨ phantoms.contains name
  · rw [if_pos hc] at h
    cases hf : s.ingredients.find? (·.name = name) with
    | none => rw [hf] at h; cases h
    | some row =>
      rw [hf] at h
      cases h
      refine ⟨rfl, rfl, rfl, le_refl _, fun x hx => hx, ⟨row, ?_, rfl, ?_⟩,
        fun x hx => Or.inl hx⟩
      · exact List.mem_of_find?_eq_some hf
      · simpa using List.find?_some hf
  · rw [if_neg hc] at h
    cases h
    push_neg at hc
    have hfresh : ∀ y ∈ s.ingredients, y.name ≠ name := by
      intro y hy hn
      exact hc.1 (List.any_eq_true.mpr ⟨y, hy, by simp [hn]⟩)
    refine ⟨rfl, rfl, rfl, Nat.le_succ _,
      fun x hx => List.mem_append_left _ hx,
      ⟨⟨s.nextIngredientId, name⟩, List.mem_append_right _ (List.mem_singleton.mpr rfl),
        rfl, rfl⟩, ?_⟩
    intro x hx
    rcases List.mem_append.mp hx with hx | hx
    · exact Or.inl hx
    · right
      refine ⟨List.mem_singleton.mp hx, rfl, ?_, hfresh⟩
      simpa using hc.2

/-- A successful resolver call preserves the ingredient-table invariant. -/
theorem resolveIngredient_wf {phantoms : List String} {name : String}
    {s : DBState} {iid : Nat} {s' : DBState}
    (h : resolveIngredient phantoms name s = .ok (iid, s')) (hw : WFing s) :
    WFing s' := by
  unfold resolveIngredient at h
  by_cases hc : s.ingredients.any (·.name = name) ∨ phantoms.contains name
  · rw [if_pos hc] at h
    cases hf : s.ingredients.find? (·.name = name) with
    | none => rw [hf] at h; cases h
    | some row => rw [hf] at h; cases h; exact hw
  · rw [if_neg hc] at h
    cases h
    push_neg at hc
    obtain ⟨hbound, hids, hnames⟩ := hw
    have hfresh : ∀ y ∈ s.ingredients, y.name ≠ name := by
      intro y hy hn
      exact hc.1 (List.any_eq_true.mpr ⟨y, hy, by simp [hn]⟩)
    refine ⟨?_, ?_, ?_⟩
    · intro i hi
      rcases List.mem_append.mp hi with hi | hi
      · exact Nat.lt_succ_of_lt (hbound i hi)
      · rw [List.mem_singleton.mp hi]
        exact Nat.lt_succ_self _
    · rw [List.pairwise_append]
      refine ⟨hids, List.pairwise_singleton _ _, ?_⟩
      intro a ha b hb
      rw [List.mem_singleton.mp hb]
      exact Nat.ne_of_lt (hbound a ha)
    · rw [List.pairwise_append]
      refine ⟨hnames, List.pairwise_singleton _ _, ?_⟩
      intro a ha b hb
      rw [List.mem_singleton.mp hb]
      exact hfresh a ha

/-- If the transaction already sees a row for the name, the resolver returns
precisely that row's id and leaves the state untouched. -/
theorem resolveIngredient_of_present {phantoms : List String}
    {s : DBState} {row : IngredientRow}
    (hmem : row ∈ s.ingredients)
    (hnames : s.ingredients.Pairwise (fun a b => a.name ≠ b.name)) :
    resolveIngredient phantoms row.name s = .ok (row.ingredient_id, s) := by
  unfold resolveIngredient
  have hany : s.ingredients.any (·.name = row.name) = true := by
    simp only [List.any_eq_true, decide_eq_true_eq]
    exact ⟨row, hmem, rfl⟩
  rw [if_pos (Or.inl hany), find?_eq_of_key_mem (fun r => r.name) hmem hnames]

/-! ## Line-processing lemmas -/

/-- Inversion of a successful single-line step. -/
theorem insertLine_ok_inv {rid : Nat} {f : FaultSpec} {idx : Nat}
    {line : IngredientInput} {s s₁ : DBState}
    (h : insertLine rid f idx line s = .ok s₁) :
    ∃ iid t, resolveIngredient f.phantoms line.name s = .ok (iid, t) ∧
      s₁ = { t with recipe_ingredients :=
              t.recipe_ingredients ++ [⟨rid, iid, line.quantity, line.unit⟩] } := by
  unfold insertLine at h
  split at h
  · cases h
  · rename_i iid t heq
    split at h
    · cases h
    · cases h
      exact ⟨iid, t, heq, rfl⟩

/-- Everything the transaction-level proofs need about a successful pass over
the whole `ingredients` array: the recipe table and its sequence are untouched,
the ingredient table grows monotonically keeping its invariant, and the join
table is extended by exactly one matching row per input line, in order. -/
theorem processLines_ok_inv {rid : Nat} {f : FaultSpec} :
    ∀ {gs : List IngredientInput} {idx : Nat} {s s' : DBState},
      processLines rid f gs idx s = .ok s' → WFing s →
      WFing s' ∧ s'.recipes = s.recipes ∧ s'.nextRecipeId = s.nextRecipeId ∧
      s.nextIngredientId ≤ s'.nextIngredientId ∧
      (∀ x ∈ s.ingredients, x ∈ s'.ingredients) ∧
      ∃ Δ, s'.recipe_ingredients = s.recipe_ingredients ++ Δ ∧
        List.Forall₂ (LineMatches rid s') Δ gs := by
  intro gs
  induction gs with
  | nil =>
    intro idx s s' h hw
    unfold processLines at h
    cases h
    exact ⟨hw, rfl, rfl, le_refl _, fun x hx => hx, [], by simp, List.Forall₂.nil⟩
  | cons g rest ih =>
    intro idx s s' h hw
    unfold processLines at h
    cases h₁ : insertLine rid f idx g s with
    | error e => rw [h₁] at h; cases h
    | ok s₁ =>
      rw [h₁] at h
      obtain ⟨iid, t, hres, hs₁⟩ := insertLine_ok_inv h₁
      obtain ⟨hrec, hri, hnrid, hnle, hmono, hrow, -⟩ := resolveIngredient_ok hres
      have hwt : WFing t := resolveIngredient_wf hres hw
      have hw₁ : WFing s₁ := by
        subst hs₁; exact hwt
      obtain ⟨ihwf, ihrec, ihnrid, ihnle, ihmono, Δr, ihΔ, ihfa⟩ := ih h hw₁
      refine ⟨ihwf, ?_, ?_, ?_, ?_, ⟨rid, iid, g.quantity, g.unit⟩ :: Δr, ?_, ?_⟩
      · rw [ihrec]; subst hs₁; exact hrec
      · rw [ihnrid]; subst hs₁; exact hnrid
      · refine le_trans ?_ ihnle
        subst hs₁; exact hnle
      · intro x hx
        apply ihmono
        subst hs₁
        exact hmono x hx
      · rw [ihΔ]
        subst hs₁
        simp [hri]
      · refine List.Forall₂.cons ⟨rfl, rfl, rfl, ?_⟩ ihfa
        obtain ⟨row, hrmem, hrid, hrname⟩ := hrow
        refine ⟨row, ?_, hrid, hrname⟩
        apply ihmono
        subst hs₁
        exact hrmem

/-- With the fault-free schedule every pass over the array succeeds: the
conflict branch always finds the row that caused the conflict. -/
theorem processLines_noFault_ok (rid : Nat) :
    ∀ (gs : List IngredientInput) (idx : Nat) (s : DBState),
      ∃ s', processLines rid noFault gs idx s = .ok s' := by
  intro gs
  induction gs with
  | nil => intro idx s; exact ⟨s, rfl⟩
  | cons g rest ih =>
    intro idx s
    have hres : ∃ iid t, resolveIngredient [] g.name s = .ok (iid, t) := by
      unfold resolveIngredient
      by_cases hc : s.ingredients.any (·.name = g.name)
      · cases hf : s.ingredients.find? (·.name = g.name) with
        | none =>
          rw [List.find?_eq_none] at hf
          obtain ⟨x, hx, hpx⟩ := List.any_eq_true.mp hc
          exact absurd hpx (by simpa using hf x hx)
        | some row =>
          refine ⟨row.ingredient_id, s, ?_⟩
          rw [if_pos (by simp [hc])]
      · refine ⟨s.nextIngredientId,
          { s with ingredients := s.ingredients ++ [⟨s.nextIngredientId, g.name⟩],
                   nextIngredientId := s.nextIngredientId + 1 }, ?_⟩
        rw [if_neg (by simp [hc])]
    obtain ⟨iid, t, hres⟩ := hres
    have hline : insertLine rid noFault idx g s =
        .ok { t with recipe_ingredients :=
                t.recipe_ingredients ++ [⟨rid, iid, g.quantity, g.unit⟩] } := by
      simp only [insertLine, show noFault.phantoms = [] from rfl, hres]
      rw [if_neg (by simp [noFault])]
    obtain ⟨s', hs'⟩ := ih (idx + 1)
      { t with recipe_ingredients :=
          t.recipe_ingredients ++ [⟨rid, iid, g.quantity, g.unit⟩] }
    refine ⟨s', ?_⟩
    unfold processLines
    rw [hline]
    exact hs'

/-- If some line's name is raced by a concurrent transaction (its unique-index
entry conflicts, its row is invisible) and no visible row carries the name,
then the pass over the array fails: the conflicting name can never enter the
visible table, so its line's fallback lookup comes up empty. -/
theorem processLines_phantom_error {rid : Nat} {f : FaultSpec} {n : String}
    (hn : n ∈ f.phantoms) :
    ∀ (gs : List IngredientInput) (idx : Nat) (s : DBState),
      (∃ g ∈ gs, g.name = n) → (∀ row ∈ s.ingredients, row.name ≠ n) →
      ∃ e, processLines rid f gs idx s = .error e := by
  intro gs
  induction gs with
  | nil =>
    intro idx s hg _
    obtain ⟨g, hg, -⟩ := hg
    cases hg
  | cons g rest ih =>
    intro idx s hg hno
    unfold processLines
    cases h₁ : insertLine rid f idx g s with
    | error e => exact ⟨e, rfl⟩
    | ok s₁ =>
      obtain ⟨iid, t, hres, hs₁⟩ := insertLine_ok_inv h₁
      obtain ⟨-, -, -, -, -, -, hnew⟩ := resolveIngredient_ok hres
      -- the processed head cannot be the raced name …
      have hgname : g.name ≠ n := by
        intro hgn
        -- a successful resolve of the raced name needs a visible row for it
        obtain ⟨-, -, -, -, -, ⟨row, hrmem, -, hrname⟩, -⟩ := resolveIngredient_ok hres
        rcases hnew row hrmem with hold | hfreshrow
        · exact hno row hold (hrname.trans hgn)
        · have : ¬ f.phantoms.contains g.name := hfreshrow.2.2.1
          exact this (by rw [hgn]; simpa using hn)
      -- … so the raced name is still absent afterwards
      have hno₁ : ∀ row ∈ s₁.ingredients, row.name ≠ n := by
        intro row hrow
        have hrow' : row ∈ t.ingredients := by rw [hs₁] at hrow; exact hrow
        rcases hnew row hrow' with hold | hfreshrow
        · exact hno row hold
        · rw [hfreshrow.1]
          exact hgname
      have hg₁ : ∃ g' ∈ rest, g'.name = n := by
        rcases hg with ⟨g', hg', hg'n⟩
        rcases List.mem_cons.mp hg' with hh | hh
        · exact absurd (hh ▸ hg'n) hgname
        · exact ⟨g', hh, hg'n⟩
      exact ih (idx + 1) s₁ hg₁ hno₁

/-- Inversion of a successful create: the new recipe id is the serial value,
the recipe row is appended, the invariant is preserved, the ingredient table
grows monotonically and the join table gains one matching row per line. -/
theorem createRecipe_ok_inv {inp : RecipeInput} {f : FaultSpec} {s : DBState}
    {rid : Nat} {t : DBState} {b : Bool}
    (h : createRecipe inp f s = ⟨.created rid, t, b⟩) (hw : WF s) :
    rid = s.nextRecipeId ∧ WF t ∧
    t.recipes = s.recipes ++
      [⟨rid, inp.title, inp.instructions, inp.imageUrl, inp.categoryId⟩] ∧
    t.nextRecipeId = s.nextRecipeId + 1 ∧
    (∀ x ∈ s.ingredients, x ∈ t.ingredients) ∧
    ∃ Δ, t.recipe_ingredients = s.recipe_ingredients ++ Δ ∧
      List.Forall₂ (LineMatches rid t) Δ inp.ingredients := by
  unfold createRecipe at h
  split at h
  · cases h
  · rename_i hfr
    split at h
    · rename_i s₂ heq
      cases h
      obtain ⟨hbound, hpw, hwing⟩ := hw
      obtain ⟨twf, trec, tnrid, -, tmono, Δ, tΔ, tfa⟩ :=
        processLines_ok_inv heq hwing
      refine ⟨rfl, ⟨?_, ?_, twf⟩, by rw [trec], by rw [tnrid], tmono, Δ, tΔ, tfa⟩
      · intro r hr
        rw [trec] at hr
        rw [tnrid]
        rcases List.mem_append.mp hr with hr | hr
        · exact Nat.lt_succ_of_lt (hbound r hr)
        · rw [List.mem_singleton.mp hr]
          exact Nat.lt_succ_self _
      · rw [trec]
        rw [List.pairwise_append]
        refine ⟨hpw, List.pairwise_singleton _ _, ?_⟩
        intro a ha c hc
        rw [List.mem_singleton.mp hc]
        exact Nat.ne_of_lt (hbound a ha)
    · cases h

/-- With the fault-free schedule, create always succeeds (the handler performs
no validation, so no input is ever turned away). -/
theorem createRecipe_noFault_ok (inp : RecipeInput) (s : DBState) :
    ∃ t, createRecipe inp noFault s = ⟨.created s.nextRecipeId, t, true⟩ := by
  unfold createRecipe
  rw [if_neg (by simp [noFault])]
  obtain ⟨s', hs'⟩ := processLines_noFault_ok s.nextRecipeId inp.ingredients 0
    { s with
      recipes := s.recipes ++
        [⟨s.nextRecipeId, inp.title, inp.instructions, inp.imageUrl, inp.categoryId⟩],
      nextRecipeId := s.nextRecipeId + 1 }
  exact ⟨s', by rw [hs']⟩

/-- On an error response, create leaves the database exactly as it was
(the `catch` block's `ROLLBACK`). -/
theorem createRecipe_error_state {inp : RecipeInput} {f : FaultSpec} {s : DBState} :
    (createRecipe inp f s).resp = .serverError500 → (createRecipe inp f s).state = s := by
  unfold createRecipe
  split
  · intro _; rfl
  · split
    · intro hh; cases hh
    · intro _; rfl

theorem forall2_mem_right {α β : Type} {R : α → β → Prop}
    {as : List α} {bs : List β} (h : List.Forall₂ R as bs) {b : β} (hb : b ∈ bs) :
    ∃ a ∈ as, R a b := by
  induction h with
  | nil => cases hb
  | cons h1 _ ih =>
    rcases List.mem_cons.mp hb with hh | hh
    · exact ⟨_, List.mem_cons_self _ _, hh ▸ h1⟩
    · obtain ⟨a, ha, har⟩ := ih hh
      exact ⟨a, List.mem_cons_of_mem _ ha, har⟩

theorem forall2_mem_left {α β : Type} {R : α → β → Prop}
    {as : List α} {bs : List β} (h : List.Forall₂ R as bs) {a : α} (ha : a ∈ as) :
    ∃ b ∈ bs, R a b := by
  induction h with
  | nil => cases ha
  | cons h1 _ ih =>
    rcases List.mem_cons.mp ha with hh | hh
    · exact ⟨_, List.mem_cons_self _ _, hh ▸ h1⟩
    · obtain ⟨b, hb, hbr⟩ := ih hh
      exact ⟨b, List.mem_cons_of_mem _ hb, hbr⟩

/-- Reading the persisted join rows back through the ingredient catalog
recovers exactly the input lines, in order. -/
theorem forall2_readback {rid : Nat} {t : DBState}
    (hids : t.ingredients.Pairwise (fun a b => a.ingredient_id ≠ b.ingredient_id)) :
    ∀ {Δ : List RecipeIngredientRow} {gs : List IngredientInput},
      List.Forall₂ (LineMatches rid t) Δ gs →
      Δ.map (fun l => (ingredientName t l.ingredient_id, l.quantity, l.unit)) =
      gs.map (fun g => (some g.name, g.quantity, g.unit)) := by
  intro Δ gs h
  induction h with
  | nil => rfl
  | @cons l g Δ' gs' h1 _ ih =>
    obtain ⟨-, hq, hu, row, hrmem, hrid, hrname⟩ := h1
    simp only [List.map_cons, ih]
    have hname : ingredientName t l.ingredient_id = some g.name := by
      unfold ingredientName
      rw [← hrid, find?_eq_of_key_mem (fun x => x.ingredient_id) hrmem hids]
      rw [Option.map_some']
      rw [hrname]
    rw [hname, hq, hu]

/-- The delete statement's row count is zero exactly when no recipe row
carries the id. -/
theorem sqlDeleteRecipe_count_zero (id : Nat) (s : DBState) :
    (sqlDeleteRecipe id s).fst = 0 ↔ ∀ r ∈ s.recipes, r.recipe_id ≠ id := by
  unfold sqlDeleteRecipe
  rw [Nat.sub_eq_zero_iff_le]
  constructor
  · intro hle
    have heq : (s.recipes.filter (fun r => r.recipe_id ≠ id)).length = s.recipes.length :=
      Nat.le_antisymm (List.length_filter_le _ _) hle
    intro r hr
    simpa using List.filter_length_eq_length.mp heq r hr
  · intro hall
    rw [List.filter_eq_self.mpr (fun r hr => by simpa using hall r hr)]

/-- The `UPDATE` statement never changes a row's primary key. -/
theorem recipeId_after_update (id : Nat) (inp : RecipeInput) (r : RecipeRow) :
    (if r.recipe_id = id then
      { r with title := inp.title, instructions := inp.instructions,
               image_url := inp.imageUrl, category_id := inp.categoryId }
    else r).recipe_id = r.recipe_id := by
  split <;> rfl

/-- Inversion of a fault-free update with a non-empty ingredient list: it
succeeds, preserves the invariant, grows the ingredient table monotonically,
and replaces the target's join rows with one matching row per input line. -/
theorem updateRecipe_noFault_inv (id : Nat) (inp : RecipeInput) (s : DBState)
    (hw : WF s) (hne : inp.ingredients ≠ []) :
    (updateRecipe id inp noFault s).fst = .updatedOk200 ∧
    WF (updateRecipe id inp noFault s).snd ∧
    (∀ x ∈ s.ingredients, x ∈ (updateRecipe id inp noFault s).snd.ingredients) ∧
    ∃ Δ, (updateRecipe id inp noFault s).snd.recipe_ingredients =
        s.recipe_ingredients.filter (fun l => l.recipe_id ≠ id) ++ Δ ∧
      List.Forall₂ (LineMatches id (updateRecipe id inp noFault s).snd) Δ
        inp.ingredients := by
  obtain ⟨s3, hs3⟩ := processLines_noFault_ok id inp.ingredients 0
    { s with recipes := recipesAfterUpdate id inp s,
             recipe_ingredients :=
               s.recipe_ingredients.filter (fun l => l.recipe_id ≠ id) }
  have hupd : updateRecipe id inp noFault s = (.updatedOk200, s3) := by
    unfold updateRecipe
    rw [if_pos (List.length_pos.mpr hne), hs3]
  rw [hupd]
  have hw2 : WFing
      { s with recipes := recipesAfterUpdate id inp s,
               recipe_ingredients :=
                 s.recipe_ingredients.filter (fun l => l.recipe_id ≠ id) } :=
    hw.2.2
  obtain ⟨hwf3, hrec3, hnrid3, -, hmono3, Δ, hΔ, hfa⟩ := processLines_ok_inv hs3 hw2
  refine ⟨rfl, ⟨?_, ?_, hwf3⟩, hmono3, Δ, hΔ, hfa⟩
  · intro r hr
    have hre : s3.recipes = recipesAfterUpdate id inp s := hrec3
    have hr' : r ∈ recipesAfterUpdate id inp s := by
      rw [← hre]
      exact hr
    have hn' : s3.nextRecipeId = s.nextRecipeId := hnrid3
    rw [hn']
    obtain ⟨r₀, hr₀, hfr⟩ := List.mem_map.mp hr'
    rw [← hfr, recipeId_after_update]
    exact hw.1 r₀ hr₀
  · have hrec' : s3.recipes = recipesAfterUpdate id inp s := hrec3
    rw [hrec']
    unfold recipesAfterUpdate
    rw [List.pairwise_map]
    exact hw.2.1.imp (fun hab => by
      simp only [recipeId_after_update]
      exact hab)

/-- Everything the idempotence proof needs about one write (create or update)
that mentions the name `n` in its lines: the invariant is preserved, existing
ingredient rows survive, some catalog row for `n` is referenced by a join row
of the write's recipe, and join rows of other recipes survive. -/
theorem runWrite_inv (w : WriteRequest) (n : String) (s : DBState)
    (hw : WF s) (hn : ∃ g ∈ w.lines, g.name = n) :
    WF (runWrite w s).snd ∧
    (∀ x ∈ s.ingredients, x ∈ (runWrite w s).snd.ingredients) ∧
    (∃ row ∈ (runWrite w s).snd.ingredients, row.name = n ∧
      ∃ l ∈ (runWrite w s).snd.recipe_ingredients,
        l.recipe_id = (runWrite w s).fst ∧ l.ingredient_id = row.ingredient_id) ∧
    (∀ l ∈ s.recipe_ingredients, l.recipe_id ≠ (runWrite w s).fst →
      l ∈ (runWrite w s).snd.recipe_ingredients) := by
  cases w with
  | create inp =>
    obtain ⟨t, ht⟩ := createRecipe_noFault_ok inp s
    have hsnd : (runWrite (.create inp) s).snd = t := by
      show (createRecipe inp noFault s).state = t
      rw [ht]
    have hfst : (runWrite (.create inp) s).fst = s.nextRecipeId := rfl
    rw [hsnd, hfst]
    obtain ⟨-, hwt, -, -, hmono, Δ, hΔ, hfa⟩ := createRecipe_ok_inv ht hw
    obtain ⟨g, hg, hgn⟩ := hn
    obtain ⟨l, hl, hlrid, -, -, row, hrmem, hrowid, hrowname⟩ :=
      forall2_mem_right hfa hg
    refine ⟨hwt, hmono,
      ⟨row, hrmem, hrowname.trans hgn, l, ?_, hlrid, hrowid.symm⟩, ?_⟩
    · rw [hΔ]
      exact List.mem_append_right _ hl
    · intro l' hl' _
      rw [hΔ]
      exact List.mem_append_left _ hl'
  | update id inp =>
    have hne : inp.ingredients ≠ [] := by
      obtain ⟨g, hg, -⟩ := hn
      exact List.ne_nil_of_mem hg
    have hsnd : (runWrite (.update id inp) s).snd = (updateRecipe id inp noFault s).snd :=
      rfl
    have hfst : (runWrite (.update id inp) s).fst = id := rfl
    rw [hsnd, hfst]
    obtain ⟨-, hwt, hmono, Δ, hΔ, hfa⟩ := updateRecipe_noFault_inv id inp s hw hne
    obtain ⟨g, hg, hgn⟩ := hn
    obtain ⟨l, hl, hlrid, -, -, row, hrmem, hrowid, hrowname⟩ :=
      forall2_mem_right hfa hg
    refine ⟨hwt, hmono,
      ⟨row, hrmem, hrowname.trans hgn, l, ?_, hlrid, hrowid.symm⟩, ?_⟩
    · rw [hΔ]
      exact List.mem_append_right _ hl
    · intro l' hl' hne'
      rw [hΔ]
      apply List.mem_append_left
      exact List.mem_filter.mpr ⟨hl', by simpa using hne'⟩

/-! ## The claims -/

/-- C1: create is atomic — whenever any statement after `BEGIN` fails (the
recipe insert, an ingredient resolution, or an ingredient-line insert, as
injected by an arbitrary fault schedule) the handler answers with the error
response and the transaction is rolled back: the database is exactly the
pre-request state, and in particular get-by-id for the id the create would
have assigned returns NotFound — no partial recipe with missing ingredient
lines is persisted. -/
theorem create_atomic_rollback (inp : RecipeInput) (f : FaultSpec) (s : DBState)
    (hw : WF s) (hfail : (createRecipe inp f s).resp = .serverError500) :
    (createRecipe inp f s).state = s ∧
    getRecipeById s.nextRecipeId (createRecipe inp f s).state = none := by
  have hstate := createRecipe_error_state hfail
  refine ⟨hstate, ?_⟩
  rw [hstate]
  unfold getRecipeById
  have hnone : s.recipes.find? (fun r => r.recipe_id = s.nextRecipeId) = none := by
    rw [List.find?_eq_none]
    intro r hr
    simpa using Nat.ne_of_lt (hw.1 r hr)
  rw [hnone]
  rfl

/-- C1 witness: a concrete create of the Tea recipe whose third line insert
fails rolls back to the empty database. -/
theorem create_atomic_rollback_witness :
    (createRecipe teaInput thirdLineFails emptyDB).state = emptyDB ∧
    getRecipeById emptyDB.nextRecipeId (createRecipe teaInput thirdLineFails emptyDB).state
      = none :=
  create_atomic_rollback teaInput thirdLineFails emptyDB (by decide) (by decide)

/-- C7: a successful delete leaves no join row referencing the deleted recipe
id (the cascade over `recipe_ingredients` is modelled from the spec, the
repository shipping no schema file). -/
theorem delete_no_orphan_lines (id : Nat) (s : DBState)
    (hok : (deleteRecipe id s).fst = .deletedOk200) :
    ((deleteRecipe id s).snd.recipe_ingredients.all (fun l => l.recipe_id ≠ id)) = true := by
  unfold deleteRecipe at hok ⊢
  by_cases h0 : (sqlDeleteRecipe id s).fst = 0
  · rw [if_pos h0] at hok
    cases hok
  · rw [if_neg h0]
    rw [List.all_eq_true]
    intro l hl
    have hl' : l ∈ s.recipe_ingredients.filter (fun l => l.recipe_id ≠ id) := hl
    simpa using List.of_mem_filter hl'

/-- C7 witness: deleting recipe 1 from a database where it owns two lines
leaves no line with recipe id 1. -/
theorem delete_no_orphan_lines_witness :
    ((deleteRecipe 1 twoLineState).snd.recipe_ingredients.all
      (fun l => l.recipe_id ≠ 1)) = true :=
  delete_no_orphan_lines 1 twoLineState (by decide)

/-- C8: when a line's ingredient name is raced by a concurrent transaction —
its unique-index entry makes the conflict insert a silent no-op while no
visible row carries the name, so the fallback lookup finds nothing — the
resolver throws, the create handler answers with the error response, and the
enclosing transaction is rolled back instead of committing. -/
theorem resolver_race_aborts_transaction (inp : RecipeInput) (f : FaultSpec)
    (s : DBState)
    (hrace : ∃ g ∈ inp.ingredients, g.name ∈ f.phantoms ∧
      ∀ row ∈ s.ingredients, row.name ≠ g.name) :
    (createRecipe inp f s).resp = .serverError500 ∧
    (createRecipe inp f s).state = s := by
  obtain ⟨g, hg, hgp, hno⟩ := hrace
  unfold createRecipe
  split
  · exact ⟨rfl, rfl⟩
  · split
    · rename_i s2 heq
      obtain ⟨e, he⟩ := processLines_phantom_error hgp inp.ingredients 0
        { s with
          recipes := s.recipes ++
            [⟨s.nextRecipeId, inp.title, inp.instructions, inp.imageUrl, inp.categoryId⟩],
          nextRecipeId := s.nextRecipeId + 1 }
        ⟨g, hg, rfl⟩ hno
      rw [he] at heq
      cases heq
    · exact ⟨rfl, rfl⟩

/-- C8 witness: creating the Tea recipe while a concurrent transaction races
on the name `Water` aborts with a server error and leaves the empty database
untouched. -/
theorem resolver_race_aborts_transaction_witness :
    (createRecipe teaInput waterRace emptyDB).resp = .serverError500 ∧
    (createRecipe teaInput waterRace emptyDB).state = emptyDB :=
  resolver_race_aborts_transaction teaInput waterRace emptyDB (by decide)

/-- C9: the delete handler answers 404 exactly when no recipe row with the
given id existed (the statement's row count was zero), and the success
confirmation exactly when one did. -/
theorem delete_404_iff_absent (id : Nat) (s : DBState) :
    ((deleteRecipe id s).fst = .notFound404 ↔ ∀ r ∈ s.recipes, r.recipe_id ≠ id) ∧
    ((deleteRecipe id s).fst = .deletedOk200 ↔ ∃ r ∈ s.recipes, r.recipe_id = id) := by
  unfold deleteRecipe
  by_cases h0 : (sqlDeleteRecipe id s).fst = 0
  · rw [if_pos h0]
    have habs := (sqlDeleteRecipe_count_zero id s).mp h0
    constructor
    · exact ⟨fun _ => habs, fun _ => rfl⟩
    · constructor
      · intro hh; cases hh
      · intro ⟨r, hr, hrid⟩
        exact absurd hrid (habs r hr)
  · rw [if_neg h0]
    have hex : ∃ r ∈ s.recipes, r.recipe_id = id := by
      by_contra hcon
      push_neg at hcon
      exact h0 ((sqlDeleteRecipe_count_zero id s).mpr hcon)
    constructor
    · constructor
      · intro hh; cases hh
      · intro habs
        obtain ⟨r, hr, hrid⟩ := hex
        exact absurd hrid (habs r hr)
    · exact ⟨fun _ => hex, fun _ => rfl⟩

/-- C10: on any query failure, the get-all handler's catch block dereferences
the unbound identifier `err` (the caught parameter is named `error`), so the
catch block itself throws a ReferenceError and the handler's 500 JSON response
is never sent — the framework's fallback handles the failure instead. -/
theorem getall_catch_throws_reference_error (msg : String) (s : DBState) :
    getAllHandler (some msg) s = .threwReferenceError "err" := by
  unfold getAllHandler lookupVar catchParamName catchBodyVarName
  rfl

/-- C4 counterexample: for a recipe with zero ingredient lines the readers do
include the recipe, but `json_agg` over the null-extended `LEFT JOIN` row makes
`ingredients` the one-element array `[\x7b name: null, quantity: null,
unit: null \x7d]`, not the empty array the claim requires. -/
theorem zero_lines_not_empty_array_cex :
    getRecipeById 1 zeroLineState =
      some ⟨⟨1, "T", "I", none, 1⟩, [nullJsonIngredient]⟩ ∧
    (getAllRecipes zeroLineState).map (fun v => v.ingredients) = [[nullJsonIngredient]] ∧
    ([nullJsonIngredient] : List JsonIngredient) ≠ [] := by
  refine ⟨by decide, by decide, by decide⟩

/-- C4 amended: a recipe with zero ingredient lines still appears in get-all
and get-by-id (the outer join), with `ingredients` equal to the one-element
array holding the all-null object — a non-null, non-empty array. -/
theorem zero_line_recipe_still_read (s : DBState) (r : RecipeRow)
    (hw : WF s) (hmem : r ∈ s.recipes) (hzero : recipeLines s r.recipe_id = []) :
    (⟨r, [nullJsonIngredient]⟩ : RecipeView) ∈ getAllRecipes s ∧
    getRecipeById r.recipe_id s = some ⟨r, [nullJsonIngredient]⟩ := by
  have hagg : aggIngredients s r.recipe_id = [nullJsonIngredient] := by
    unfold aggIngredients
    rw [hzero]
  constructor
  · unfold getAllRecipes
    exact List.mem_map.mpr ⟨r, hmem, by rw [hagg]⟩
  · unfold getRecipeById
    rw [find?_eq_of_key_mem (fun x => x.recipe_id) hmem hw.2.1, Option.map_some', hagg]

/-- C4 amended witness: the concrete zero-line recipe of id 1. -/
theorem zero_line_recipe_still_read_witness :
    (⟨⟨1, "T", "I", none, 1⟩, [nullJsonIngredient]⟩ : RecipeView) ∈
      getAllRecipes zeroLineState ∧
    getRecipeById 1 zeroLineState = some ⟨⟨1, "T", "I", none, 1⟩, [nullJsonIngredient]⟩ :=
  zero_line_recipe_still_read zeroLineState ⟨1, "T", "I", none, 1⟩
    (by decide) (by decide) (by decide)

/-- C5 counterexample: no recipe with id 999 exists, yet the update handler
reports 200 success instead of failing with NotFound — it never inspects the
`UPDATE` statement's row count. -/
theorem update_missing_recipe_reports_ok_cex :
    getRecipeById 999 emptyDB = none ∧
    updateRecipe 999 emptyLinesInput noFault emptyDB = (.updatedOk200, emptyDB) := by
  refine ⟨by decide, by decide⟩

/-- C5 amended: the update handler has no 404 path at all; for a target id
matching no recipe and an empty ingredient list, the transaction commits and
the handler reports success, leaving the database unchanged. -/
theorem update_never_404 (id : Nat) (inp : RecipeInput) (f : FaultSpec)
    (s : DBState)
    (habsent : ∀ r ∈ s.recipes, r.recipe_id ≠ id)
    (hempty : inp.ingredients = []) :
    updateRecipe id inp f s = (.updatedOk200, s) := by
  unfold updateRecipe
  rw [hempty]
  rw [if_neg (by simp)]
  have hmap : recipesAfterUpdate id inp s = s.recipes := by
    unfold recipesAfterUpdate
    conv_rhs => rw [← List.map_id s.recipes]
    apply List.map_congr_left
    intro r hr
    rw [if_neg (habsent r hr)]
    rfl
  rw [hmap]

/-- C5 amended witness: updating the absent id 42 with no lines reports
success on the two-line database. -/
theorem update_never_404_witness :
    updateRecipe 42 emptyLinesInput noFault twoLineState =
      (.updatedOk200, twoLineState) :=
  update_never_404 42 emptyLinesInput noFault twoLineState (by decide) (by decide)

/-- C6 counterexample: a request violating every input constraint (empty
title and instructions, a line with empty name, zero quantity, empty unit) is
not rejected with 400: the handler opens a transaction, persists the recipe
and answers 201. -/
theorem create_accepts_invalid_cex :
    (createRecipe invalidInput noFault emptyDB).began = true ∧
    (createRecipe invalidInput noFault emptyDB).resp = .created 1 ∧
    (createRecipe invalidInput noFault emptyDB).state ≠ emptyDB := by
  refine ⟨by decide, by decide, by decide⟩

/-- C6 amended: the create handler performs no validation whatsoever — under
every fault schedule it opens a transaction (`BEGIN` precedes any inspection
of the fields), and absent storage failures every request body, however
invalid, is accepted with 201. -/
theorem create_never_validates (inp : RecipeInput) (f : FaultSpec) (s : DBState) :
    (createRecipe inp f s).began = true ∧
    ∃ t, createRecipe inp noFault s = ⟨.created s.nextRecipeId, t, true⟩ := by
  constructor
  · unfold createRecipe
    split
    · rfl
    · split <;> rfl
  · exact createRecipe_noFault_ok inp s

/-- C3 counterexample: the delete-all step is guarded by
`if (ingredients && ingredients.length > 0)`, so an update whose input
ingredient list is empty keeps the previously existing lines — they are not
deleted, contradicting `this delete-all step happens on every update`. -/
theorem update_empty_list_keeps_lines_cex :
    (updateRecipe 1 emptyLinesInput noFault twoLineState).fst = .updatedOk200 ∧
    (updateRecipe 1 emptyLinesInput noFault twoLineState).snd.recipe_ingredients =
      [⟨1, 1, 1, "x"⟩, ⟨1, 2, 2, "y"⟩] ∧
    ([⟨1, 1, 1, "x"⟩, ⟨1, 2, 2, "y"⟩] : List RecipeIngredientRow) ≠ [] := by
  refine ⟨by decide, by decide, by decide⟩

/-- C3 amended: on every successful update whose input ingredient list is
non-empty, the previously existing lines of the recipe are deleted and the
input lines persisted in their place — reading the recipe's join rows back
through the catalog yields exactly the input lines; when the input list is
empty the delete-all step is skipped and the old lines are kept. -/
theorem update_replaces_lines_when_nonempty (id : Nat) (inp : RecipeInput)
    (s : DBState) {s' : DBState}
    (hw : WF s) (hne : inp.ingredients ≠ [])
    (h : updateRecipe id inp noFault s = (.updatedOk200, s')) :
    (recipeLines s' id).map
        (fun l => (ingredientName s' l.ingredient_id, l.quantity, l.unit)) =
      inp.ingredients.map (fun g => (some g.name, g.quantity, g.unit)) := by
  unfold updateRecipe at h
  rw [if_pos (List.length_pos.mpr hne)] at h
  split at h
  · rename_i s3 heq
    injection h with h1 h2
    subst h2
    have hw2 : WFing
        { s with recipes := recipesAfterUpdate id inp s,
                 recipe_ingredients :=
                   s.recipe_ingredients.filter (fun l => l.recipe_id ≠ id) } :=
      hw.2.2
    obtain ⟨hwf3, -, -, -, -, Δ, hΔ, hfa⟩ := processLines_ok_inv heq hw2
    have hlines : recipeLines s3 id = Δ := by
      unfold recipeLines
      rw [hΔ, List.filter_append]
      have hnil : (s.recipe_ingredients.filter (fun l => l.recipe_id ≠ id)).filter
          (fun l => l.recipe_id = id) = [] := by
        apply List.filter_eq_nil_iff.mpr
        intro a ha
        have := List.of_mem_filter ha
        simpa using (by simpa using this : a.recipe_id ≠ id)
      have hall : Δ.filter (fun l => l.recipe_id = id) = Δ := by
        apply List.filter_eq_self.mpr
        intro a ha
        obtain ⟨g, -, hlm⟩ := forall2_mem_left hfa ha
        simpa using hlm.1
      rw [hnil, hall, List.nil_append]
    rw [hlines]
    exact forall2_readback hwf3.2.1 hfa
  · cases h

/-- C3 amended witness: replacing the two lines of recipe 1 with the single
line `C` reads back exactly `C`. -/
theorem update_replaces_lines_when_nonempty_witness :
    (recipeLines (updateRecipe 1 onlyCInput noFault twoLineState).snd 1).map
        (fun l => (ingredientName (updateRecipe 1 onlyCInput noFault twoLineState).snd
          l.ingredient_id, l.quantity, l.unit)) =
      onlyCInput.ingredients.map (fun g => (some g.name, g.quantity, g.unit)) :=
  update_replaces_lines_when_nonempty 1 onlyCInput twoLineState
    (by decide) (by decide) (by decide)

/-- C2: ingredient resolution is idempotent on names — after any two write
requests (create or update, both sharing the conflict-then-lookup resolver
block) whose ingredient lines both reference the name `n`, the catalog holds
exactly one row for `n`, and each request's recipe (the created recipe, or the
update's target) owns a join row referencing that row's ingredient id. -/
theorem ingredient_resolution_idempotent (w1 w2 : WriteRequest) (n : String)
    (s : DBState)
    (hw : WF s)
    (hn1 : ∃ g ∈ w1.lines, g.name = n)
    (hn2 : ∃ g ∈ w2.lines, g.name = n) :
    ∃ i,
      (runWrite w2 (runWrite w1 s).snd).snd.ingredients.filter
        (fun row => row.name = n) = [⟨i, n⟩] ∧
      (∃ l ∈ (runWrite w2 (runWrite w1 s).snd).snd.recipe_ingredients,
        l.recipe_id = (runWrite w1 s).fst ∧ l.ingredient_id = i) ∧
      (∃ l ∈ (runWrite w2 (runWrite w1 s).snd).snd.recipe_ingredients,
        l.recipe_id = (runWrite w2 (runWrite w1 s).snd).fst ∧
        l.ingredient_id = i) := by
  obtain ⟨hwt1, -, ⟨row1, hrow1t1, hrow1n, l1, hl1t1, hl1rid, hl1iid⟩, -⟩ :=
    runWrite_inv w1 n s hw hn1
  obtain ⟨hwt2, hmono2, ⟨row2, hrow2t2, hrow2n, l2, hl2t2, hl2rid, hl2iid⟩, hpres2⟩ :=
    runWrite_inv w2 n (runWrite w1 s).snd hwt1 hn2
  have hrow1t2 : row1 ∈ (runWrite w2 (runWrite w1 s).snd).snd.ingredients :=
    hmono2 row1 hrow1t1
  obtain ⟨-, -, -, -, hpwname2⟩ := hwt2
  have hroweq : row1 = row2 :=
    key_mem_unique (fun x => x.name) hrow1t2 hrow2t2 hpwname2
      (by show row1.name = row2.name; rw [hrow1n, hrow2n])
  refine ⟨row1.ingredient_id, ?_, ?_, ?_⟩
  · rw [show n = row1.name from hrow1n.symm]
    exact filter_key_eq_singleton (fun x => x.name) hrow1t2 hpwname2
  · by_cases hsame : (runWrite w1 s).fst = (runWrite w2 (runWrite w1 s).snd).fst
    · refine ⟨l2, hl2t2, ?_, ?_⟩
      · rw [hsame]
        exact hl2rid
      · rw [hl2iid, ← hroweq]
    · refine ⟨l1, ?_, hl1rid, hl1iid⟩
      apply hpres2 l1 hl1t1
      rw [hl1rid]
      exact hsame
  · refine ⟨l2, hl2t2, hl2rid, ?_⟩
    rw [hl2iid, ← hroweq]

/-- C2 witness: a create introducing `Salt` followed by an update of the
pre-existing recipe 1 also using `Salt` share one catalog row. -/
theorem ingredient_resolution_idempotent_witness :
    ∃ i,
      (runWrite (.update 1 saltInputB)
          (runWrite (.create saltInputA) twoLineState).snd).snd.ingredients.filter
        (fun row => row.name = "Salt") = [⟨i, "Salt"⟩] ∧
      (∃ l ∈ (runWrite (.update 1 saltInputB)
          (runWrite (.create saltInputA) twoLineState).snd).snd.recipe_ingredients,
        l.recipe_id = (runWrite (.create saltInputA) twoLineState).fst ∧
        l.ingredient_id = i) ∧
      (∃ l ∈ (runWrite (.update 1 saltInputB)
          (runWrite (.create saltInputA) twoLineState).snd).snd.recipe_ingredients,
        l.recipe_id = (runWrite (.update 1 saltInputB)
          (runWrite (.create saltInputA) twoLineState).snd).fst ∧
        l.ingredient_id = i) :=
  ingredient_resolution_idempotent (.create saltInputA) (.update 1 saltInputB)
    "Salt" twoLineState (by decide) (by decide) (by decide)

end FoodRecipeApi
